import Mathlib

/-!
Verification of the UID generation and idempotent upsert subsystem of the
RAG-Agent repository.

The development is a shallow embedding of the JavaScript sources:
  - src/utils/uidGenerator.js   (extractPropertyCode, generateUID,
                                 addUIDsToRows, isValidUID)
  - src/services/upsert.js      (upsertDocumentsWithUID)
  - src/services/ingestion.js   (generateEmbeddings batching loop)

Strings are modelled as lists of characters.  JavaScript values that flow
through these functions are modelled by the type JsVal below: a string, the
null value, or any other (non-string) value; the only observations the
embedded code makes of a value are string-ness, string contents, and
truthiness, so this abstraction is faithful on every reachable input.
The store (Supabase table units_vacancy) is modelled as an explicit record
list with an id counter and a logical clock used for the created_at /
updated_at timestamps (schema.sql defaults both to NOW() on insert).
Store errors are modelled by an error oracle indexed by the operation
counter: operation number n fails exactly when the oracle returns true at n.
-/

/-- Model of a JavaScript value as observed by the embedded code: a string,
the null value, or any non-string value (number, undefined, object, ...).
Both functions of uidGenerator.js guard with a falsy-or-not-a-string test, so
all non-string values behave identically there. -/
inductive JsVal where
  | vstr : List Char → JsVal
  | vnull : JsVal
  | vother : JsVal
deriving DecidableEq, Repr

/-- ASCII whitespace, the fragment of the JS whitespace class relevant to the
embedded data: space, tab, line feed, carriage return, vertical tab, form
feed.  Used both for String.prototype.trim and for the regex class \s. -/
def isJsWs (c : Char) : Bool :=
  c == ' ' || c == '\t' || c == '\n' || c == '\r' || c == '\x0b' || c == '\x0c'

/-- Model of String.prototype.trim: drop whitespace from both ends. -/
def jsTrim (s : List Char) : List Char :=
  ((s.dropWhile isJsWs).reverse.dropWhile isJsWs).reverse

/-- The regex class \d restricted to ASCII, i.e. the characters 0-9. -/
def isAsciiDigit (c : Char) : Bool := 48 ≤ c.toNat && c.toNat ≤ 57

/-- The regex class [A-Z] under the i flag: an ASCII letter of either case. -/
def isAsciiAlpha (c : Char) : Bool :=
  (65 ≤ c.toNat && c.toNat ≤ 90) || (97 ≤ c.toNat && c.toNat ≤ 122)

/-- The regex class [A-Z0-9] under the i flag: ASCII letter or digit. -/
def isAsciiAlnum (c : Char) : Bool := isAsciiAlpha c || isAsciiDigit c

/-- Model of String.prototype.toUpperCase restricted to ASCII: lowercase
letters are shifted down by 32, every other character is unchanged.  The
embedded code only ever uppercases the ASCII letter-plus-digits strings
captured by its regexes, where this agrees with JavaScript. -/
def asciiUpper (c : Char) : Char :=
  if 97 ≤ c.toNat && c.toNat ≤ 122 then Char.ofNat (c.toNat - 32) else c

/-- Result of matching the anchored regex ^([A-Z]\d+) with the i flag: the
first character must be an ASCII letter, followed by the maximal (greedy)
nonempty run of digits; the captured group is returned. -/
def matchLeadingCode : List Char → Option (List Char)
  | [] => none
  | c :: rest =>
    if isAsciiAlpha c then
      match rest.takeWhile isAsciiDigit with
      | [] => none
      | ds => some (c :: ds)
    else none

/-- Result of matching the fully anchored regex ^([A-Z]\d+)$ with the i flag:
the whole string must be one ASCII letter followed by one or more digits. -/
def matchFullCode : List Char → Option (List Char)
  | [] => none
  | c :: rest =>
    if isAsciiAlpha c && !rest.isEmpty && rest.all isAsciiDigit then
      some (c :: rest)
    else none

/-- Embedding of extractPropertyCode (src/utils/uidGenerator.js): rejects
falsy or non-string input, then matches ^([A-Z]\d+)/i against the trimmed
input and uppercases the captured group; a second fully anchored match
^([A-Z]\d+)$/i is attempted if the first fails, exactly as in the source. -/
def extractPropertyCode (propertyName : JsVal) : Option (List Char) :=
  match propertyName with
  | JsVal.vstr s =>
    if s.isEmpty then none
    else
      match matchLeadingCode (jsTrim s) with
      | some m => some (m.map asciiUpper)
      | none =>
        match matchFullCode (jsTrim s) with
        | some m => some (m.map asciiUpper)
        | none => none
  | _ => none

/-- Model of unitNumber.trim().replace with the global regex \s+ and an empty
replacement: every whitespace character of the string is removed. -/
def stripWs (s : List Char) : List Char :=
  (jsTrim s).filter (fun c => !(isJsWs c))

/-- Embedding of generateUID (src/utils/uidGenerator.js): extracts the
property code, rejects falsy or non-string unit numbers, strips whitespace
from the unit number, and concatenates code ++ underscore ++ unit.  The
function is total, matching the source which never throws. -/
def generateUID (propertyName unitNumber : JsVal) : Option (List Char) :=
  match extractPropertyCode propertyName with
  | none => none
  | some propertyCode =>
    match unitNumber with
    | JsVal.vstr u =>
      if u.isEmpty then none
      else some (propertyCode ++ '_' :: stripWs u)
    | _ => none

/-- Result of matching the regex ^[A-Z]\d+_[A-Z0-9]+$ with the i flag: one
ASCII letter, a nonempty digit run, an underscore, then a nonempty
alphanumeric run spanning the rest of the string.  The greedy \d+ followed by
the literal underscore needs no backtracking because an underscore is never a
digit, so taking the maximal digit run is equivalent. -/
def uidPattern : List Char → Bool
  | [] => false
  | c :: rest =>
    isAsciiAlpha c &&
      (let ds := rest.takeWhile isAsciiDigit
       !ds.isEmpty &&
         (match rest.drop ds.length with
          | '_' :: tail => !tail.isEmpty && tail.all isAsciiAlnum
          | _ => false))

/-- Embedding of isValidUID (src/utils/uidGenerator.js): rejects falsy or
non-string input, then tests the UID regex. -/
def isValidUID (uid : JsVal) : Bool :=
  match uid with
  | JsVal.vstr s => if s.isEmpty then false else uidPattern s
  | _ => false

theorem toNat_ofNat_valid (n : Nat) (h : n.isValidChar) : (Char.ofNat n).toNat = n := by
  simp only [Char.ofNat, dif_pos h, Char.ofNatAux, Char.toNat]
  simp [UInt32.toNat, BitVec.toNat_ofNatLt]

theorem asciiUpper_alpha (c : Char) (h : isAsciiAlpha c = true) :
    isAsciiAlpha (asciiUpper c) = true := by
  unfold asciiUpper
  split
  case isTrue hl =>
    have hl' : 97 ≤ c.toNat ∧ c.toNat ≤ 122 := by simpa using hl
    have hv : (c.toNat - 32).isValidChar := by
      left
      omega
    rw [isAsciiAlpha, toNat_ofNat_valid _ hv]
    have hb : 65 ≤ c.toNat - 32 ∧ c.toNat - 32 ≤ 90 := by omega
    simp [hb.1, hb.2]
  case isFalse hl => exact h

theorem asciiUpper_digit (c : Char) (hd : isAsciiDigit c = true) : asciiUpper c = c := by
  unfold asciiUpper
  have hd' : 48 ≤ c.toNat ∧ c.toNat ≤ 57 := by simpa [isAsciiDigit] using hd
  have hn : ¬ (97 ≤ c.toNat && c.toNat ≤ 122) = true := by
    simp
    omega
  simp [hn]

theorem map_asciiUpper_digits (ds : List Char) (h : ds.all isAsciiDigit = true) :
    ds.map asciiUpper = ds := by
  induction ds with
  | nil => rfl
  | cons a t ih =>
    simp only [List.all_cons, Bool.and_eq_true] at h
    simp [asciiUpper_digit a h.1, ih h.2]

theorem takeWhile_all_append (p : Char → Bool) (ds t : List Char) (x : Char)
    (hds : ds.all p = true) (hx : p x = false) :
    (ds ++ x :: t).takeWhile p = ds := by
  induction ds with
  | nil => simp [List.takeWhile_cons, hx]
  | cons a d ih =>
    simp only [List.all_cons, Bool.and_eq_true] at hds
    simp [List.takeWhile_cons, hds.1, ih hds.2]

theorem takeWhile_self_of_all (p : Char → Bool) (l : List Char) (h : l.all p = true) :
    l.takeWhile p = l :=
  List.takeWhile_eq_self_iff.mpr (fun a ha => List.all_eq_true.mp h a ha)

theorem matchLeadingCode_shape (l m : List Char) (h : matchLeadingCode l = some m) :
    ∃ c rest, l = c :: rest ∧ isAsciiAlpha c = true ∧
      m = c :: rest.takeWhile isAsciiDigit ∧ rest.takeWhile isAsciiDigit ≠ [] := by
  match l with
  | [] => simp [matchLeadingCode] at h
  | c :: rest =>
    by_cases ha : isAsciiAlpha c = true
    · cases hw : rest.takeWhile isAsciiDigit with
      | nil =>
        rw [matchLeadingCode, if_pos ha, hw] at h
        simp at h
      | cons x xs =>
        rw [matchLeadingCode, if_pos ha, hw] at h
        simp only [Option.some.injEq] at h
        exact ⟨c, rest, rfl, ha, by rw [hw, ← h], by rw [hw]; simp⟩
    · have ha' : isAsciiAlpha c = false := by simpa using ha
      rw [matchLeadingCode, if_neg (by simp [ha'])] at h
      simp at h

theorem matchFullCode_shape (l m : List Char) (h : matchFullCode l = some m) :
    ∃ c rest, l = c :: rest ∧ isAsciiAlpha c = true ∧
      m = c :: rest ∧ rest ≠ [] ∧ rest.all isAsciiDigit = true := by
  match l with
  | [] => simp [matchFullCode] at h
  | c :: rest =>
    by_cases ha : (isAsciiAlpha c && !rest.isEmpty && rest.all isAsciiDigit) = true
    · rw [matchFullCode, if_pos ha] at h
      simp only [Option.some.injEq] at h
      simp only [Bool.and_eq_true, Bool.not_eq_true'] at ha
      exact ⟨c, rest, rfl, ha.1.1, h.symm, by simpa using ha.1.2, ha.2⟩
    · rw [matchFullCode, if_neg ha] at h
      simp at h

theorem extractPropertyCode_shape (p : JsVal) (code : List Char)
    (h : extractPropertyCode p = some code) :
    ∃ c ds, code = asciiUpper c :: ds ∧ isAsciiAlpha c = true ∧
      ds ≠ [] ∧ ds.all isAsciiDigit = true := by
  match p with
  | JsVal.vnull => simp [extractPropertyCode] at h
  | JsVal.vother => simp [extractPropertyCode] at h
  | JsVal.vstr s =>
    by_cases he : s.isEmpty = true
    · rw [extractPropertyCode] at h
      simp [he] at h
    · have he' : s.isEmpty = false := by simpa using he
      rw [extractPropertyCode] at h
      simp only [he', Bool.false_eq_true, if_false] at h
      cases hl : matchLeadingCode (jsTrim s) with
      | some m =>
        rw [hl] at h
        simp only [Option.some.injEq] at h
        obtain ⟨c, rest, _, hca, hm, hne⟩ := matchLeadingCode_shape _ _ hl
        have hall : (rest.takeWhile isAsciiDigit).all isAsciiDigit = true :=
          List.all_eq_true.mpr (fun a ha => List.mem_takeWhile_imp ha)
        refine ⟨c, rest.takeWhile isAsciiDigit, ?_, hca, hne, hall⟩
        rw [← h, hm]
        simp [map_asciiUpper_digits _ hall]
      | none =>
        rw [hl] at h
        cases hf : matchFullCode (jsTrim s) with
        | some m =>
          rw [hf] at h
          simp only [Option.some.injEq] at h
          obtain ⟨c, rest, _, hca, hm, hne, hall⟩ := matchFullCode_shape _ _ hf
          refine ⟨c, rest, ?_, hca, hne, hall⟩
          rw [← h, hm]
          simp [map_asciiUpper_digits _ hall]
        | none =>
          rw [hf] at h
          simp at h

theorem extract_none_of_no_leading (t : List Char) (hno : matchLeadingCode t = none) :
    matchFullCode t = none := by
  cases t with
  | nil => rfl
  | cons c r =>
    by_cases ha : isAsciiAlpha c = true
    · rw [matchLeadingCode, if_pos ha] at hno
      cases hw : r.takeWhile isAsciiDigit with
      | cons x xs =>
        rw [hw] at hno
        simp at hno
      | nil =>
        rw [matchFullCode]
        cases hr : r with
        | nil => simp
        | cons y ys =>
          have hy : isAsciiDigit y = false := by
            by_contra hy'
            have hy'' : isAsciiDigit y = true := by simpa using hy'
            rw [hr, List.takeWhile_cons, hy''] at hw
            simp at hw
          have hall : (y :: ys).all isAsciiDigit = false := by simp [List.all_cons, hy]
          simp [hall]
    · have ha' : isAsciiAlpha c = false := by simpa using ha
      rw [matchFullCode]
      simp [ha']

theorem extract_eq_none_of_no_leading (s : List Char)
    (hno : matchLeadingCode (jsTrim s) = none) :
    extractPropertyCode (JsVal.vstr s) = none := by
  rw [extractPropertyCode]
  by_cases he : s.isEmpty = true
  · simp [he]
  · have he' : s.isEmpty = false := by simpa using he
    simp [he', hno, extract_none_of_no_leading _ hno]

/-- Claim C5: derivePropertyCode contract.  For every string whose trimmed
form starts with one ASCII letter followed by at least one digit,
extractPropertyCode returns exactly that leading letter-plus-digits prefix
uppercased, regardless of trailing content; for every input whose trimmed
form does not start with that pattern, and for empty or non-string input, it
returns null. -/
theorem extractPropertyCode_contract (s : List Char) (c : Char) (rest : List Char) :
    (jsTrim s = c :: rest → isAsciiAlpha c = true → rest.takeWhile isAsciiDigit ≠ [] →
       extractPropertyCode (JsVal.vstr s)
         = some ((c :: rest.takeWhile isAsciiDigit).map asciiUpper))
    ∧ ((jsTrim s = [] ∨ isAsciiAlpha ((jsTrim s).headD '0') = false
          ∨ ((jsTrim s).tail).takeWhile isAsciiDigit = []) →
       extractPropertyCode (JsVal.vstr s) = none)
    ∧ extractPropertyCode (JsVal.vstr []) = none
    ∧ extractPropertyCode JsVal.vnull = none
    ∧ extractPropertyCode JsVal.vother = none := by
  refine ⟨?_, ?_, by decide, rfl, rfl⟩
  · intro ht ha hd
    have hs : s ≠ [] := by
      intro h
      rw [h] at ht
      simp [jsTrim] at ht
    have he' : s.isEmpty = false := by
      cases s with
      | nil => exact absurd rfl hs
      | cons a t => rfl
    cases hw : rest.takeWhile isAsciiDigit with
    | nil => exact absurd hw hd
    | cons x xs =>
      rw [extractPropertyCode]
      simp [he', ht, matchLeadingCode, ha, hw]
  · intro hcond
    refine extract_eq_none_of_no_leading s ?_
    cases ht : jsTrim s with
    | nil => rfl
    | cons c' r' =>
      rcases hcond with h0 | hhead | htk
      · rw [ht] at h0
        simp at h0
      · rw [ht] at hhead
        simp only [List.headD_cons] at hhead
        rw [matchLeadingCode, if_neg (by simp [hhead])]
      · rw [ht] at htk
        simp only [List.tail_cons] at htk
        by_cases ha' : isAsciiAlpha c' = true
        · rw [matchLeadingCode, if_pos ha', htk]
        · have ha'' : isAsciiAlpha c' = false := by simpa using ha'
          rw [matchLeadingCode, if_neg (by simp [ha''])]

/-- Claim C5 witness: the spec example "p1234-x" yields "P1234", via the
contract theorem applied at that concrete input. -/
theorem extractPropertyCode_contract_witness :
    extractPropertyCode (JsVal.vstr ("p1234-x".toList)) = some ("P1234".toList) := by
  have h := (extractPropertyCode_contract ("p1234-x".toList) 'p' ("1234-x".toList)).1
    (by decide) (by decide) (by decide)
  rw [h]
  decide

/-- Claim C6: deriveUID contract.  generateUID returns null when property
code extraction fails or when the unit label is empty or not a string (the
embedding is a total function, so it never throws); otherwise it returns the
code, an underscore, and the unit label with all whitespace removed, case
preserved; including the two concrete examples from the spec. -/
theorem generateUID_contract (p u : JsVal) (code s : List Char) :
    (extractPropertyCode p = none → generateUID p u = none)
    ∧ generateUID p JsVal.vnull = none
    ∧ generateUID p JsVal.vother = none
    ∧ generateUID p (JsVal.vstr []) = none
    ∧ (extractPropertyCode p = some code → s ≠ [] →
        generateUID p (JsVal.vstr s) = some (code ++ '_' :: stripWs s))
    ∧ generateUID (JsVal.vstr ("S0002 - 101 Maple".toList)) (JsVal.vstr ("D2".toList))
        = some ("S0002_D2".toList)
    ∧ generateUID (JsVal.vstr ("S0020 - Oak Plaza".toList)) (JsVal.vstr ("1 N".toList))
        = some ("S0020_1N".toList) := by
  refine ⟨?_, ?_, ?_, ?_, ?_, by decide, by decide⟩
  · intro h
    rw [generateUID, h]
  · cases hc : extractPropertyCode p with
    | none => rw [generateUID, hc]
    | some code' => rw [generateUID, hc]
  · cases hc : extractPropertyCode p with
    | none => rw [generateUID, hc]
    | some code' => rw [generateUID, hc]
  · cases hc : extractPropertyCode p with
    | none => rw [generateUID, hc]
    | some code' =>
      rw [generateUID, hc]
      simp
  · intro hc hs
    have he' : s.isEmpty = false := by
      cases s with
      | nil => exact absurd rfl hs
      | cons a t => rfl
    rw [generateUID, hc]
    simp [he']

/-- Claim C6 witness: the contract theorem applied at the concrete input
("S0002", "D 2"), whose whitespace-stripped unit token is "D2". -/
theorem generateUID_contract_witness :
    generateUID (JsVal.vstr ("S0002".toList)) (JsVal.vstr ("D 2".toList))
      = some ("S0002_D2".toList) := by
  have h := (generateUID_contract (JsVal.vstr ("S0002".toList)) JsVal.vnull
    ("S0002".toList) ("D 2".toList)).2.2.2.2.1 (by decide) (by decide)
  rw [h]
  decide

/-- Claim C4 counterexample: the Deriver performs no character-set validation
of the unit token, so generateUID("S0002", "D-2") yields "S0002_D-2", which
does not match the UID regex: isValidUID rejects it.  The claimed format
invariant therefore fails for unit labels containing non-alphanumeric
characters. -/
theorem uid_format_invariant_cex :
    generateUID (JsVal.vstr ("S0002".toList)) (JsVal.vstr ("D-2".toList))
      = some ("S0002_D-2".toList)
    ∧ isValidUID (JsVal.vstr ("S0002_D-2".toList)) = false := by
  decide

/-- Claim C4 as amended: every non-null UID the Deriver emits matches the
regex of one letter, digits, underscore, alphanumerics, provided the unit
label's whitespace-stripped form is nonempty and consists only of ASCII
alphanumerics.  (Without that restriction the invariant fails, see the
counterexample.) -/
theorem uid_format_invariant_amended (p : JsVal) (s w : List Char)
    (hne : stripWs s ≠ [])
    (halnum : (stripWs s).all isAsciiAlnum = true)
    (hw : generateUID p (JsVal.vstr s) = some w) :
    isValidUID (JsVal.vstr w) = true := by
  cases hc : extractPropertyCode p with
  | none =>
    rw [generateUID, hc] at hw
    simp at hw
  | some code =>
    rw [generateUID, hc] at hw
    by_cases he : s.isEmpty = true
    · simp [he] at hw
    · have he' : s.isEmpty = false := by simpa using he
      simp only [he', Bool.false_eq_true, if_false, Option.some.injEq] at hw
      obtain ⟨c, ds, hcode, hca, hdne, hdall⟩ := extractPropertyCode_shape p code hc
      subst hw
      rw [hcode]
      have hdne' : ds.isEmpty = false := by
        cases ds with
        | nil => exact absurd rfl hdne
        | cons a t => rfl
      have hne' : (stripWs s).isEmpty = false := by
        cases hstw : stripWs s with
        | nil => exact absurd hstw hne
        | cons a t => rfl
      have h1 : (ds ++ '_' :: stripWs s).takeWhile isAsciiDigit = ds :=
        takeWhile_all_append _ _ _ _ hdall (by decide)
      have h2 : (ds ++ '_' :: stripWs s).drop ds.length = '_' :: stripWs s :=
        List.drop_left ds _
      rw [isValidUID]
      simp only [List.cons_append, List.isEmpty_cons, Bool.false_eq_true, if_false]
      rw [uidPattern]
      simp [h1, h2, asciiUpper_alpha c hca, hdne', hne', halnum]

/-- Claim C4 amended witness: the amended invariant applied at the concrete
input ("S0002", "D2"), whose UID "S0002_D2" is accepted by isValidUID. -/
theorem uid_format_invariant_amended_witness :
    isValidUID (JsVal.vstr ("S0002_D2".toList)) = true :=
  uid_format_invariant_amended (JsVal.vstr ("S0002".toList)) ("D2".toList)
    ("S0002_D2".toList) (by decide) (by decide) (by decide)

/-- Model of a JavaScript row object as an association list from column names
to values; lookup observes the first binding of a key, and JS objects bind
each key once, so this is faithful. -/
abbrev Row : Type := List (List Char × JsVal)

/-- Reading row[k]: the first value bound to key k, or the undefined value
(modelled as vother, a non-string) when the key is absent. -/
def getVal (row : Row) (k : List Char) : JsVal :=
  match row with
  | [] => JsVal.vother
  | p :: rest => if p.1 = k then p.2 else getVal rest k

/-- Model of the object spread: a copy of row with key k bound to v, either
replacing the existing binding in place or appended at the end. -/
def setVal (row : Row) (k : List Char) (v : JsVal) : Row :=
  if row.any (fun p => p.1 == k) then
    row.map (fun p => if p.1 = k then (k, v) else p)
  else row ++ [(k, v)]

theorem getVal_map_upd_ne (row : Row) (k k' : List Char) (v : JsVal) (h : k' ≠ k) :
    getVal (row.map (fun p => if p.1 = k then (k, v) else p)) k' = getVal row k' := by
  induction row with
  | nil => rfl
  | cons p rest ih =>
    by_cases hp : p.1 = k
    · have hk : ¬ (k = k') := fun hh => h hh.symm
      simp [getVal, hp, hk, ih]
    · simp [getVal, hp, ih]

theorem getVal_append_ne (row : Row) (k k' : List Char) (v : JsVal) (h : k' ≠ k) :
    getVal (row ++ [(k, v)]) k' = getVal row k' := by
  induction row with
  | nil =>
    have hk : ¬ (k = k') := fun hh => h hh.symm
    simp [getVal, hk]
  | cons p rest ih =>
    by_cases hp : p.1 = k'
    · simp [getVal, hp]
    · simp [getVal, hp, ih]

theorem getVal_setVal_ne (row : Row) (k k' : List Char) (v : JsVal) (h : k' ≠ k) :
    getVal (setVal row k v) k' = getVal row k' := by
  rw [setVal]
  cases ha : row.any (fun p => p.1 == k) with
  | true =>
    simp only [ha, if_true]
    exact getVal_map_upd_ne row k k' v h
  | false =>
    simp only [ha, Bool.false_eq_true, if_false]
    exact getVal_append_ne row k k' v h

theorem getVal_map_upd_self (row : Row) (k : List Char) (v : JsVal)
    (h : row.any (fun p => p.1 == k) = true) :
    getVal (row.map (fun p => if p.1 = k then (k, v) else p)) k = v := by
  induction row with
  | nil => simp at h
  | cons p rest ih =>
    by_cases hp : p.1 = k
    · simp [getVal, hp]
    · have hrest : rest.any (fun p => p.1 == k) = true := by
        simp only [List.any_cons, Bool.or_eq_true, beq_iff_eq] at h
        rcases h with h | h
        · exact absurd h hp
        · exact h
      simp [getVal, hp, ih hrest]

theorem getVal_append_self (row : Row) (k : List Char) (v : JsVal)
    (h : row.any (fun p => p.1 == k) = false) :
    getVal (row ++ [(k, v)]) k = v := by
  induction row with
  | nil => simp [getVal]
  | cons p rest ih =>
    simp only [List.any_cons, Bool.or_eq_false_iff, beq_eq_false_iff_ne] at h
    simp [getVal, h.1, ih h.2]

theorem getVal_setVal_self (row : Row) (k : List Char) (v : JsVal) :
    getVal (setVal row k v) k = v := by
  rw [setVal]
  cases ha : row.any (fun p => p.1 == k) with
  | true =>
    simp only [ha, if_true]
    exact getVal_map_upd_self row k v ha
  | false =>
    simp only [ha, Bool.false_eq_true, if_false]
    exact getVal_append_self row k v ha

/-- Result of addUIDsToRows (src/utils/uidGenerator.js): the mapped rows
together with the two counters the source tallies and logs. -/
structure AnnotateResult where
  rows : List Row
  successCount : Nat
  failCount : Nat
deriving DecidableEq, Repr

/-- Body of the rows.map callback in addUIDsToRows: reads the configured
property and unit columns, calls generateUID, and returns the spread copy of
the row with the UID column bound to the generated UID string, or to null on
failure, together with the success flag driving the counters. -/
def annotateRow (pcol ucol uidcol : List Char) (row : Row) : Row × Bool :=
  match generateUID (getVal row pcol) (getVal row ucol) with
  | some u => (setVal row uidcol (JsVal.vstr u), true)
  | none => (setVal row uidcol JsVal.vnull, false)

/-- Embedding of addUIDsToRows (src/utils/uidGenerator.js): maps annotateRow
over the rows in order, counting successes and failures; the generated UID is
always a nonempty string, so truthiness of the JS uid coincides with the
option being some. -/
def addUIDsToRows (rows : List Row) (pcol ucol uidcol : List Char) : AnnotateResult :=
  match rows with
  | [] => { rows := [], successCount := 0, failCount := 0 }
  | r :: rs =>
    let p := annotateRow pcol ucol uidcol r
    let rest := addUIDsToRows rs pcol ucol uidcol
    { rows := p.1 :: rest.rows,
      successCount := (if p.2 then 1 else 0) + rest.successCount,
      failCount := (if p.2 then 0 else 1) + rest.failCount }

/-- A row for which UID derivation fails, i.e. generateUID returns null on
its property and unit columns. -/
def rowFailsUID (pcol ucol : List Char) (row : Row) : Bool :=
  (generateUID (getVal row pcol) (getVal row ucol)).isNone

theorem filter_not_length (l : List Row) (p : Row → Bool) :
    (l.filter p).length + (l.filter (fun r => !(p r))).length = l.length := by
  induction l with
  | nil => rfl
  | cons a t ih =>
    cases hp : p a <;> simp [List.filter_cons, hp] <;> omega

theorem addUIDsToRows_spec (rows : List Row) (pcol ucol uidcol : List Char) :
    (addUIDsToRows rows pcol ucol uidcol).rows
        = rows.map (fun r => (annotateRow pcol ucol uidcol r).1)
    ∧ (addUIDsToRows rows pcol ucol uidcol).failCount
        = (rows.filter (rowFailsUID pcol ucol)).length
    ∧ (addUIDsToRows rows pcol ucol uidcol).successCount
        = (rows.filter (fun r => !(rowFailsUID pcol ucol r))).length := by
  induction rows with
  | nil => exact ⟨rfl, rfl, rfl⟩
  | cons r rs ih =>
    have hfl : rowFailsUID pcol ucol r
        = (generateUID (getVal r pcol) (getVal r ucol)).isNone := rfl
    cases hg : generateUID (getVal r pcol) (getVal r ucol) with
    | none =>
      refine ⟨?_, ?_, ?_⟩ <;>
        simp [addUIDsToRows, annotateRow, hg, List.filter_cons, hfl,
          ih.1, ih.2.1, ih.2.2] <;> omega
    | some u =>
      refine ⟨?_, ?_, ?_⟩ <;>
        simp [addUIDsToRows, annotateRow, hg, List.filter_cons, hfl,
          ih.1, ih.2.1, ih.2.2] <;> omega

/-- Claim C7: Row Annotator batch accounting.  Over N rows of which K fail
UID derivation, addUIDsToRows returns exactly N output rows in input order
(position i of the output is the annotation of position i of the input),
failCount = K, successCount = N - K, the two counts sum to N, and every
failed row is still emitted, carrying a null UID column.  The function is
total, so it never raises on a bad row. -/
theorem addUIDsToRows_accounting (rows : List Row) (pcol ucol uidcol : List Char) (i : Nat) :
    (addUIDsToRows rows pcol ucol uidcol).rows.length = rows.length
    ∧ (addUIDsToRows rows pcol ucol uidcol).failCount
        = (rows.filter (rowFailsUID pcol ucol)).length
    ∧ (addUIDsToRows rows pcol ucol uidcol).successCount
        = rows.length - (rows.filter (rowFailsUID pcol ucol)).length
    ∧ (addUIDsToRows rows pcol ucol uidcol).successCount
        + (addUIDsToRows rows pcol ucol uidcol).failCount = rows.length
    ∧ (addUIDsToRows rows pcol ucol uidcol).rows.get? i
        = (rows.get? i).map (fun r => (annotateRow pcol ucol uidcol r).1)
    ∧ ((rows.get? i).map (rowFailsUID pcol ucol) = some true →
        ((addUIDsToRows rows pcol ucol uidcol).rows.get? i).map (fun r => getVal r uidcol)
          = some JsVal.vnull) := by
  obtain ⟨h1, h2, h3⟩ := addUIDsToRows_spec rows pcol ucol uidcol
  have hsum := filter_not_length rows (rowFailsUID pcol ucol)
  refine ⟨?_, h2, ?_, ?_, ?_, ?_⟩
  · rw [h1, List.length_map]
  · rw [h3]
    omega
  · rw [h2, h3]
    omega
  · rw [h1, List.get?_map]
  · intro hf
    cases hi : rows.get? i with
    | none => rw [hi] at hf; simp at hf
    | some r =>
      rw [hi] at hf
      simp only [Option.map_some', Option.some.injEq] at hf
      have hgen : generateUID (getVal r pcol) (getVal r ucol) = none :=
        Option.isNone_iff_eq_none.mp hf
      rw [h1, List.get?_map, hi]
      simp only [Option.map_some', Option.some.injEq]
      rw [annotateRow, hgen]
      exact getVal_setVal_self r uidcol JsVal.vnull

/-- Claim C7 witness: the accounting theorem applied to a concrete two-row
batch whose first row lacks a unit column, so its UID derivation fails and
the emitted row carries a null UID. -/
theorem addUIDsToRows_accounting_witness :
    ((addUIDsToRows [[(['p'], JsVal.vstr ['S', '1'])],
        [(['p'], JsVal.vstr ['S', '2']), (['u'], JsVal.vstr ['B'])]]
        ['p'] ['u'] ['U']).rows.get? 0).map (fun r => getVal r ['U'])
      = some JsVal.vnull :=
  (addUIDsToRows_accounting [[(['p'], JsVal.vstr ['S', '1'])],
      [(['p'], JsVal.vstr ['S', '2']), (['u'], JsVal.vstr ['B'])]]
      ['p'] ['u'] ['U'] 0).2.2.2.2.2 (by decide)

/-- Claim C8: Row Annotator frame property.  For every input row of the
batch, the corresponding annotated output row maps every column other than
the UID column to exactly the same value as the input row; only the UID
column is added or overwritten. -/
theorem annotateRows_frame (rows : List Row) (pcol ucol uidcol k : List Char)
    (i : Nat) (r r' : Row)
    (h1 : rows.get? i = some r)
    (h2 : (addUIDsToRows rows pcol ucol uidcol).rows.get? i = some r')
    (hk : k ≠ uidcol) :
    getVal r' k = getVal r k := by
  obtain ⟨hr, _, _⟩ := addUIDsToRows_spec rows pcol ucol uidcol
  rw [hr, List.get?_map, h1] at h2
  simp only [Option.map_some', Option.some.injEq] at h2
  rw [← h2]
  cases hg : generateUID (getVal r pcol) (getVal r ucol) with
  | none =>
    rw [annotateRow, hg]
    exact getVal_setVal_ne r uidcol k JsVal.vnull hk
  | some u =>
    rw [annotateRow, hg]
    exact getVal_setVal_ne r uidcol k (JsVal.vstr u) hk

/-- Claim C8 witness: the frame theorem applied to a concrete row, showing a
non-UID column is preserved by annotation. -/
theorem annotateRows_frame_witness :
    getVal [(['a'], JsVal.vstr ['x']), (['U'], JsVal.vnull)] ['a']
      = getVal [(['a'], JsVal.vstr ['x'])] ['a'] :=
  annotateRows_frame [[(['a'], JsVal.vstr ['x'])]] ['p'] ['u'] ['U'] ['a'] 0
    [(['a'], JsVal.vstr ['x'])] [(['a'], JsVal.vstr ['x']), (['U'], JsVal.vnull)]
    (by decide) (by decide) (by decide)

/-- A persisted record of the units_vacancy table (supabase/schema.sql):
content, embedding, metadata (the full annotated row), source, chunk index,
the uid column, and the created_at / updated_at timestamps, which schema.sql
defaults to NOW() on insert; id is modelled as a counter value.  The
embedding is optional because the source reads embeddings_list[idx], which is
undefined past the end of the list. -/
structure StoredRecord where
  id : Nat
  content : List Char
  embedding : Option (List Int)
  metadata : Row
  source : List Char
  chunk_index : Nat
  uid : Option (List Char)
  created_at : Nat
  updated_at : Nat
deriving DecidableEq, Repr

/-- The store state: the table rows, the id counter for fresh inserts, and a
logical clock advanced by one at every store operation; timestamps are clock
values.  The error oracle of an upsert run is indexed by this clock. -/
structure Store where
  recs : List StoredRecord
  nextId : Nat
  tick : Nat
deriving DecidableEq, Repr

/-- One embeddable unit as built by upsertDocumentsWithUID from a chunk:
pageContent plus the chunk metadata row. -/
structure Chunk where
  pageContent : List Char
  metadata : Row
deriving DecidableEq, Repr

/-- One document of the documents array in upsertDocumentsWithUID. -/
structure Doc where
  content : List Char
  embedding : Option (List Int)
  metadata : Row
  chunk_index : Nat
  uid : Option (List Char)
deriving DecidableEq, Repr

/-- The outcome recorded for one unit: exactly one of the three counters of
upsertDocumentsWithUID is incremented for it. -/
inductive Outcome where
  | insertedO : Outcome
  | updatedO : Outcome
  | failedO : Outcome
deriving DecidableEq, Repr

/-- The three counters returned by upsertDocumentsWithUID. -/
structure Counts where
  inserted : Nat
  updated : Nat
  failed : Nat
deriving DecidableEq, Repr

/-- The column name string UID, the metadata key used for both the document
uid field and the store lookup. -/
def uidKey : List Char := ['U', 'I', 'D']

/-- Model of the JS expression chunk.metadata?.UID followed by the
or-null fallback: a truthy string is kept, everything falsy becomes null.  In
this pipeline the metadata UID is always a string or null (set by
addUIDsToRows), so collapsing non-string values to null is faithful on every
reachable input. -/
def uidOfMetadata (m : Row) : Option (List Char) :=
  match getVal m uidKey with
  | JsVal.vstr s => if s.isEmpty then none else some s
  | _ => none

/-- Embedding of the documents array construction in upsertDocumentsWithUID:
each chunk at index idx becomes a document carrying its pageContent, the
embedding at the same index, its metadata, the chunk index, and the uid read
from the metadata UID field. -/
def mkDocuments (chunks : List Chunk) (embs : List (List Int)) : List Doc :=
  chunks.enum.map (fun p =>
    { content := p.2.pageContent, embedding := embs.get? p.1,
      metadata := p.2.metadata, chunk_index := p.1,
      uid := uidOfMetadata p.2.metadata })

/-- The store lookup predicate of the select in upsertDocumentsWithUID: the
record's metadata UID field (the JSON text extraction metadata->>UID) equals
the document uid, and the record's source equals the run's source, in that
order of eq filters. -/
def matchesUID (source u : List Char) (r : StoredRecord) : Bool :=
  decide (getVal r.metadata uidKey = JsVal.vstr u ∧ r.source = source)

/-- The fresh record built by an insert: the document fields plus the run's
source, a fresh id, and created_at / updated_at both stamped with the current
clock (the NOW() defaults of schema.sql). -/
def mkRecord (st : Store) (source : List Char) (d : Doc) : StoredRecord :=
  { id := st.nextId, content := d.content, embedding := d.embedding,
    metadata := d.metadata, source := source, chunk_index := d.chunk_index,
    uid := d.uid, created_at := st.tick, updated_at := st.tick }

/-- A successful insert appends the fresh record, allocates the next id, and
advances the clock past the insert operation. -/
def insertDoc (st : Store) (source : List Char) (d : Doc) : Store :=
  { recs := st.recs ++ [mkRecord st source d],
    nextId := st.nextId + 1,
    tick := st.tick + 1 }

/-- Embedding of the per-document try block of upsertDocumentsWithUID: with a
uid, a select limited to one match decides between updating the matched
record (content, embedding, metadata, uid, updated_at refreshed to the
current clock) and inserting a fresh one; without a uid, an unconditional
insert.  A store error at any operation is caught and yields the failed
outcome, leaving the records unchanged. -/
def upsertOne (err : Nat → Bool) (source : List Char) (st : Store) (d : Doc) :
    Store × Outcome :=
  match d.uid with
  | some u =>
    if err st.tick then ({ st with tick := st.tick + 1 }, Outcome.failedO)
    else
      match (st.recs.filter (matchesUID source u)).take 1 with
      | r :: _ =>
        if err (st.tick + 1) then ({ st with tick := st.tick + 2 }, Outcome.failedO)
        else
          ({ recs := st.recs.map (fun q =>
               if q.id = r.id then
                 { q with content := d.content, embedding := d.embedding,
                          metadata := d.metadata, uid := some u,
                          updated_at := st.tick + 1 }
               else q),
             nextId := st.nextId,
             tick := st.tick + 2 }, Outcome.updatedO)
      | [] =>
        if err (st.tick + 1) then ({ st with tick := st.tick + 2 }, Outcome.failedO)
        else (insertDoc { st with tick := st.tick + 1 } source d, Outcome.insertedO)
  | none =>
    if err st.tick then ({ st with tick := st.tick + 1 }, Outcome.failedO)
    else (insertDoc st source d, Outcome.insertedO)

/-- Incrementing the counter selected by an outcome. -/
def bump (oc : Outcome) (c : Counts) : Counts :=
  match oc with
  | Outcome.insertedO => { c with inserted := c.inserted + 1 }
  | Outcome.updatedO => { c with updated := c.updated + 1 }
  | Outcome.failedO => { c with failed := c.failed + 1 }

/-- The for-of loop of upsertDocumentsWithUID: documents are processed one
after another, each contributing exactly one outcome to the counters; the
loop never rethrows, so the run always returns counts. -/
def upsertLoop (err : Nat → Bool) (source : List Char) :
    Store → List Doc → Store × Counts
  | st, [] => (st, { inserted := 0, updated := 0, failed := 0 })
  | st, d :: ds =>
    let p := upsertOne err source st d
    let q := upsertLoop err source p.1 ds
    (q.1, bump p.2 q.2)

/-- Embedding of upsertDocumentsWithUID (src/services/upsert.js): builds the
documents array from the chunks and embeddings, then runs the per-document
upsert loop against the store, returning the final store and the three
counters. -/
def upsertDocumentsWithUID (err : Nat → Bool) (chunks : List Chunk)
    (embs : List (List Int)) (source : List Char) (st : Store) : Store × Counts :=
  upsertLoop err source st (mkDocuments chunks embs)

theorem upsertOne_nouid (err : Nat → Bool) (source : List Char) (st : Store) (d : Doc)
    (h0 : err st.tick = false) (hu : d.uid = none) :
    upsertOne err source st d = (insertDoc st source d, Outcome.insertedO) := by
  rw [upsertOne, hu]
  simp [h0]

theorem upsertOne_insert (err : Nat → Bool) (source : List Char) (st : Store) (d : Doc)
    (u : List Char) (h0 : err st.tick = false) (h1 : err (st.tick + 1) = false)
    (hu : d.uid = some u) (hf : st.recs.filter (matchesUID source u) = []) :
    upsertOne err source st d
      = (insertDoc { st with tick := st.tick + 1 } source d, Outcome.insertedO) := by
  rw [upsertOne, hu]
  simp [h0, h1, hf]

theorem upsertOne_update (err : Nat → Bool) (source : List Char) (st : Store) (d : Doc)
    (u : List Char) (r : StoredRecord) (rest : List StoredRecord)
    (h0 : err st.tick = false) (h1 : err (st.tick + 1) = false)
    (hu : d.uid = some u) (hf : st.recs.filter (matchesUID source u) = r :: rest) :
    upsertOne err source st d
      = ({ recs := st.recs.map (fun q =>
             if q.id = r.id then
               { q with content := d.content, embedding := d.embedding,
                        metadata := d.metadata, uid := some u,
                        updated_at := st.tick + 1 }
             else q),
           nextId := st.nextId, tick := st.tick + 2 }, Outcome.updatedO) := by
  rw [upsertOne, hu]
  simp [h0, h1, hf]

/-- Claim C2: the insert-vs-update decision of the Upsert Engine, with an
error-free store.  A unit with a null uid is inserted unconditionally with
the inserted outcome; a unit with a uid and no store record matching
(source, uid) is inserted with the inserted outcome; a unit whose lookup
finds a match updates that record's content, embedding, metadata, uid and
updated-timestamp in place with the updated outcome, and the number of
records is unchanged (no insertion). -/
theorem upsert_decision (err : Nat → Bool) (source : List Char) (st : Store) (d : Doc)
    (u : List Char) (r : StoredRecord) (rest : List StoredRecord)
    (hnoerr : ∀ n, err n = false) :
    (d.uid = none → upsertOne err source st d = (insertDoc st source d, Outcome.insertedO))
    ∧ (d.uid = some u → st.recs.filter (matchesUID source u) = [] →
        upsertOne err source st d
          = (insertDoc { st with tick := st.tick + 1 } source d, Outcome.insertedO))
    ∧ (d.uid = some u → st.recs.filter (matchesUID source u) = r :: rest →
        upsertOne err source st d
          = ({ recs := st.recs.map (fun q =>
                 if q.id = r.id then
                   { q with content := d.content, embedding := d.embedding,
                            metadata := d.metadata, uid := some u,
                            updated_at := st.tick + 1 }
                 else q),
               nextId := st.nextId, tick := st.tick + 2 }, Outcome.updatedO))
    ∧ (d.uid = some u → st.recs.filter (matchesUID source u) = r :: rest →
        (upsertOne err source st d).1.recs.length = st.recs.length) := by
  refine ⟨?_, ?_, ?_, ?_⟩
  · intro hu
    exact upsertOne_nouid err source st d (hnoerr st.tick) hu
  · intro hu hf
    exact upsertOne_insert err source st d u (hnoerr st.tick) (hnoerr (st.tick + 1)) hu hf
  · intro hu hf
    exact upsertOne_update err source st d u r rest (hnoerr st.tick)
      (hnoerr (st.tick + 1)) hu hf
  · intro hu hf
    rw [upsertOne_update err source st d u r rest (hnoerr st.tick)
      (hnoerr (st.tick + 1)) hu hf]
    exact List.length_map st.recs _

/-- Claim C2 witness: the decision theorem applied with the always-false
error oracle to a store holding one matching record, exercising the update
branch and showing the record count is preserved. -/
theorem upsert_decision_witness :
    (upsertOne (fun _ => false) []
        { recs := [{ id := 0, content := [], embedding := none,
                     metadata := [(uidKey, JsVal.vstr ['A'])], source := [],
                     chunk_index := 0, uid := some ['A'],
                     created_at := 0, updated_at := 0 }],
          nextId := 1, tick := 5 }
        { content := ['c'], embedding := none,
          metadata := [(uidKey, JsVal.vstr ['A'])], chunk_index := 0,
          uid := some ['A'] }).1.recs.length = 1 := by
  have h := (upsert_decision (fun _ => false) []
    { recs := [{ id := 0, content := [], embedding := none,
                 metadata := [(uidKey, JsVal.vstr ['A'])], source := [],
                 chunk_index := 0, uid := some ['A'],
                 created_at := 0, updated_at := 0 }],
      nextId := 1, tick := 5 }
    { content := ['c'], embedding := none,
      metadata := [(uidKey, JsVal.vstr ['A'])], chunk_index := 0,
      uid := some ['A'] }
    ['A']
    { id := 0, content := [], embedding := none,
      metadata := [(uidKey, JsVal.vstr ['A'])], source := [],
      chunk_index := 0, uid := some ['A'], created_at := 0, updated_at := 0 }
    [] (fun _ => rfl)).2.2.2 rfl (by decide)
  simpa using h

theorem upsertLoop_sum (err : Nat → Bool) (source : List Char) (ds : List Doc) :
    ∀ st : Store, (upsertLoop err source st ds).2.inserted
      + (upsertLoop err source st ds).2.updated
      + (upsertLoop err source st ds).2.failed = ds.length := by
  induction ds with
  | nil => intro st; rfl
  | cons d ds ih =>
    intro st
    have h := ih (upsertOne err source st d).1
    cases hoc : (upsertOne err source st d).2 <;>
      (simp [upsertLoop, bump, hoc]; omega)

/-- Claim C10: upsert count accounting.  For every input, error oracle,
source and initial store, the counts returned by upsertDocumentsWithUID
satisfy inserted + updated + failed = number of units, since processing each
unit increments exactly one of the three counters. -/
theorem upsert_counts_total (err : Nat → Bool) (chunks : List Chunk)
    (embs : List (List Int)) (source : List Char) (st : Store) :
    (upsertDocumentsWithUID err chunks embs source st).2.inserted
      + (upsertDocumentsWithUID err chunks embs source st).2.updated
      + (upsertDocumentsWithUID err chunks embs source st).2.failed
      = chunks.length := by
  have hlen : (mkDocuments chunks embs).length = chunks.length := by
    simp [mkDocuments]
  rw [upsertDocumentsWithUID]
  rw [upsertLoop_sum err source (mkDocuments chunks embs) st]
  exact hlen

/-- Claim C3: per-unit error containment.  If the lookup or the write
operation for a unit raises a store error, the unit's outcome is failed, the
loop still processes every remaining unit (the counts of the whole batch are
the counts of the rest from the post-error state, plus one failure), and the
run returns counts for all units rather than propagating the error. -/
theorem upsert_error_containment (err : Nat → Bool) (source : List Char) (st : Store)
    (d : Doc) (ds : List Doc)
    (h : err st.tick = true ∨ (d.uid.isSome = true ∧ err (st.tick + 1) = true)) :
    (upsertOne err source st d).2 = Outcome.failedO
    ∧ (upsertLoop err source st (d :: ds)).2.failed
        = (upsertLoop err source (upsertOne err source st d).1 ds).2.failed + 1
    ∧ (upsertLoop err source st (d :: ds)).2.inserted
        = (upsertLoop err source (upsertOne err source st d).1 ds).2.inserted
    ∧ (upsertLoop err source st (d :: ds)).2.updated
        = (upsertLoop err source (upsertOne err source st d).1 ds).2.updated
    ∧ (upsertLoop err source st (d :: ds)).2.inserted
        + (upsertLoop err source st (d :: ds)).2.updated
        + (upsertLoop err source st (d :: ds)).2.failed = ds.length + 1 := by
  have hfail : (upsertOne err source st d).2 = Outcome.failedO := by
    rcases h with h0 | ⟨hsome, h1⟩
    · cases hu : d.uid with
      | none => simp [upsertOne, hu, h0]
      | some u => simp [upsertOne, hu, h0]
    · cases hu : d.uid with
      | none =>
        rw [hu] at hsome
        simp at hsome
      | some u =>
        cases h0 : err st.tick with
        | true => simp [upsertOne, hu, h0]
        | false =>
          cases hm : (st.recs.filter (matchesUID source u)).take 1 with
          | nil => simp [upsertOne, hu, h0, hm, h1]
          | cons r rs => simp [upsertOne, hu, h0, hm, h1]
  have hsum := upsertLoop_sum err source (d :: ds) st
  refine ⟨hfail, ?_, ?_, ?_, ?_⟩
  · simp [upsertLoop, bump, hfail]
  · simp [upsertLoop, bump, hfail]
  · simp [upsertLoop, bump, hfail]
  · simpa using hsum

/-- Claim C3 witness: the containment theorem applied with an oracle that
fails the very first store operation, on a singleton batch. -/
theorem upsert_error_containment_witness :
    (upsertOne (fun n => n == 0) [] { recs := [], nextId := 0, tick := 0 }
      { content := [], embedding := none, metadata := [], chunk_index := 0,
        uid := some ['A'] }).2 = Outcome.failedO :=
  (upsert_error_containment (fun n => n == 0) [] { recs := [], nextId := 0, tick := 0 }
    { content := [], embedding := none, metadata := [], chunk_index := 0,
      uid := some ['A'] } [] (Or.inl (by decide))).1

theorem uidOfMetadata_vstr (m : Row) (u : List Char) (h : uidOfMetadata m = some u) :
    getVal m uidKey = JsVal.vstr u := by
  cases hg : getVal m uidKey with
  | vstr s =>
    rw [uidOfMetadata, hg] at h
    by_cases he : s.isEmpty = true
    · simp [he] at h
    · have he' : s.isEmpty = false := by simpa using he
      simp only [he', Bool.false_eq_true, if_false, Option.some.injEq] at h
      rw [h]
  | vnull =>
    rw [uidOfMetadata, hg] at h
    simp at h
  | vother =>
    rw [uidOfMetadata, hg] at h
    simp at h

theorem map_id_of_mem (l : List StoredRecord) (f : StoredRecord → StoredRecord)
    (h : ∀ a ∈ l, f a = a) : l.map f = l := by
  induction l with
  | nil => rfl
  | cons a t ih =>
    simp only [List.map_cons, h a (by simp)]
    rw [ih (fun b hb => h b (by simp [hb]))]

/-- Claim C1: serial single-unit idempotence of the Upsert Engine.  For every
source and every well-formed unit with a non-null uid, starting from an
error-free store whose ids are consistent and which holds no record matching
(source, uid), the first upsert of the unit inserts exactly one matching
record; running the same upsert again takes the update branch rather than the
insert branch (counts are zero inserted, one updated), and the store ends
with exactly one record for that (source, UID) pair, identical to the first
run's record except for the updated-timestamp. -/
theorem upsert_serial_idempotent (err : Nat → Bool) (source : List Char) (d : Doc)
    (u : List Char) (st0 : Store)
    (hnoerr : ∀ n, err n = false)
    (hwf : d.uid = uidOfMetadata d.metadata)
    (hu : d.uid = some u)
    (h0 : st0.recs.filter (matchesUID source u) = [])
    (hids : ∀ r ∈ st0.recs, r.id < st0.nextId) :
    (upsertLoop err source st0 [d]).2 = { inserted := 1, updated := 0, failed := 0 }
    ∧ (upsertLoop err source st0 [d]).1.recs.filter (matchesUID source u)
        = [mkRecord { st0 with tick := st0.tick + 1 } source d]
    ∧ (upsertLoop err source (upsertLoop err source st0 [d]).1 [d]).2
        = { inserted := 0, updated := 1, failed := 0 }
    ∧ (upsertLoop err source (upsertLoop err source st0 [d]).1 [d]).1.recs.filter
        (matchesUID source u)
        = [{ mkRecord { st0 with tick := st0.tick + 1 } source d with
             updated_at := st0.tick + 3 }] := by
  have hmeta := uidOfMetadata_vstr d.metadata u (hwf.symm.trans hu)
  have hr1match : matchesUID source u
      (mkRecord { st0 with tick := st0.tick + 1 } source d) = true := by
    simp [matchesUID, mkRecord, hmeta]
  have hstep1 : upsertOne err source st0 d
      = (insertDoc { st0 with tick := st0.tick + 1 } source d, Outcome.insertedO) :=
    upsertOne_insert err source st0 d u (hnoerr st0.tick) (hnoerr (st0.tick + 1)) hu h0
  have hloop1 : upsertLoop err source st0 [d]
      = (insertDoc { st0 with tick := st0.tick + 1 } source d,
         { inserted := 1, updated := 0, failed := 0 }) := by
    simp [upsertLoop, hstep1, bump]
  have hfilter1 : (insertDoc { st0 with tick := st0.tick + 1 } source d).recs.filter
      (matchesUID source u)
      = [mkRecord { st0 with tick := st0.tick + 1 } source d] := by
    simp only [insertDoc, List.filter_append, List.filter_cons, hr1match, if_true]
    simp [h0]
  have hstep2 := upsertOne_update err source
    (insertDoc { st0 with tick := st0.tick + 1 } source d) d u
    (mkRecord { st0 with tick := st0.tick + 1 } source d) []
    (hnoerr _) (hnoerr _) hu hfilter1
  have hmapid : ∀ a ∈ st0.recs,
      (fun q => if q.id = (mkRecord { st0 with tick := st0.tick + 1 } source d).id then
         { q with content := d.content, embedding := d.embedding, metadata := d.metadata,
                  uid := some u,
                  updated_at := (insertDoc { st0 with tick := st0.tick + 1 } source d).tick + 1 }
       else q) a = a := by
    intro a ha
    have hb : a.id < st0.nextId := hids a ha
    have hne : a.id ≠ (mkRecord { st0 with tick := st0.tick + 1 } source d).id := by
      simp only [mkRecord]
      omega
    simp [hne]
  have hmap : (insertDoc { st0 with tick := st0.tick + 1 } source d).recs.map
      (fun q => if q.id = (mkRecord { st0 with tick := st0.tick + 1 } source d).id then
         { q with content := d.content, embedding := d.embedding, metadata := d.metadata,
                  uid := some u,
                  updated_at := (insertDoc { st0 with tick := st0.tick + 1 } source d).tick + 1 }
       else q)
      = st0.recs ++ [{ mkRecord { st0 with tick := st0.tick + 1 } source d with
                       updated_at := st0.tick + 3 }] := by
    have hrecs : (insertDoc { st0 with tick := st0.tick + 1 } source d).recs
        = st0.recs ++ [mkRecord { st0 with tick := st0.tick + 1 } source d] := rfl
    rw [hrecs, List.map_append, map_id_of_mem _ _ hmapid, List.map_cons, List.map_nil]
    simp [mkRecord, insertDoc, hu, Nat.add_assoc]
  have hr2match : matchesUID source u
      { mkRecord { st0 with tick := st0.tick + 1 } source d with
        updated_at := st0.tick + 3 } = true := by
    simp [matchesUID, mkRecord, hmeta]
  refine ⟨?_, ?_, ?_, ?_⟩
  · rw [hloop1]
  · rw [hloop1]
    exact hfilter1
  · rw [hloop1]
    simp [upsertLoop, hstep2, bump]
  · rw [hloop1]
    have hfst : (upsertLoop err source (insertDoc { st0 with tick := st0.tick + 1 } source d)
        [d]).1 = (upsertOne err source (insertDoc { st0 with tick := st0.tick + 1 } source d)
        d).1 := by
      simp [upsertLoop]
    rw [hfst, hstep2]
    simp only []
    rw [hmap]
    simp only [List.filter_append, List.filter_cons, hr2match, if_true]
    simp [h0]

/-- Claim C1 witness: the idempotence theorem applied with the always-false
error oracle to an empty store and a concrete unit; the second run reports
zero inserted and one updated. -/
theorem upsert_serial_idempotent_witness :
    (upsertLoop (fun _ => false) []
        (upsertLoop (fun _ => false) [] { recs := [], nextId := 0, tick := 0 }
          [{ content := ['c'], embedding := none,
             metadata := [(uidKey, JsVal.vstr ['A'])], chunk_index := 0,
             uid := some ['A'] }]).1
        [{ content := ['c'], embedding := none,
           metadata := [(uidKey, JsVal.vstr ['A'])], chunk_index := 0,
           uid := some ['A'] }]).2
      = { inserted := 0, updated := 1, failed := 0 } :=
  (upsert_serial_idempotent (fun _ => false) []
    { content := ['c'], embedding := none, metadata := [(uidKey, JsVal.vstr ['A'])],
      chunk_index := 0, uid := some ['A'] } ['A']
    { recs := [], nextId := 0, tick := 0 }
    (fun _ => rfl) (by decide) rfl (by decide) (by simp)).2.2.1

/-- The successive slices chunks.slice(i, i + batchSize) visited by the for
loop of generateEmbeddings (src/services/ingestion.js); the loop advances i
by batchSize, so it requires batchSize of at least one to terminate, as with
the source default of 50. -/
def embedBatches (batchSize : Nat) : List (List Char) → List (List (List Char))
  | [] => []
  | t :: ts => (t :: ts).take batchSize :: embedBatches batchSize (List.drop (batchSize - 1) ts)
termination_by ts => ts.length
decreasing_by
  simp only [List.length_drop, List.length_cons]
  omega

/-- Embedding of generateEmbeddings (src/services/ingestion.js): one
provider call (prov) per slice, results pushed into the accumulator in batch
order, i.e. the concatenation of the per-batch results. -/
def generateEmbeddings (prov : List (List Char) → List (List Int))
    (batchSize : Nat) (texts : List (List Char)) : List (List Int) :=
  ((embedBatches batchSize texts).map prov).flatten

/-- The embedding requests issued by processAndUpsertCSV
(src/services/upsert.js): a single embedDocuments call carrying all texts at
once, with no batching at this layer. -/
def upsertPathEmbedCalls (texts : List (List Char)) : List (List (List Char)) :=
  [texts]

theorem embedBatches_length_le (bs : Nat) (hbs : 1 ≤ bs) :
    ∀ texts : List (List Char), ∀ b ∈ embedBatches bs texts, b.length ≤ bs := by
  intro texts
  induction texts using embedBatches.induct bs with
  | case1 => intro b hb; simp [embedBatches] at hb
  | case2 t ts ih =>
    intro b hb
    rw [embedBatches] at hb
    rcases List.mem_cons.mp hb with hb1 | hb2
    · rw [hb1]
      simpa using List.length_take_le bs (t :: ts)
    · exact ih b hb2

theorem embedBatches_flatten (bs : Nat) (hbs : 1 ≤ bs) :
    ∀ texts : List (List Char), (embedBatches bs texts).flatten = texts := by
  intro texts
  induction texts using embedBatches.induct bs with
  | case1 => simp [embedBatches]
  | case2 t ts ih =>
    rw [embedBatches, List.flatten_cons, ih]
    have hdrop : List.drop (bs - 1) ts = List.drop bs (t :: ts) := by
      cases bs with
      | zero => omega
      | succ k => rfl
    rw [hdrop]
    exact List.take_append_drop bs (t :: ts)

/-- Claim C9 counterexample: in the UID-upsert path (processAndUpsertCSV,
src/services/upsert.js), the embedding step issues a single provider call
carrying all texts at once, so for a batch of 101 units the one call receives
101 texts, exceeding the claimed bound of at most 50 to 100 per call; the
bounded batching loop exists only in the ingestCSV path. -/
theorem bounded_embed_batches_cex :
    upsertPathEmbedCalls (List.replicate 101 (['x'] : List Char))
      = [List.replicate 101 (['x'] : List Char)]
    ∧ 100 < (List.replicate 101 (['x'] : List Char)).length :=
  ⟨rfl, by simp⟩

/-- Claim C9 as amended: in the ingestCSV path, generateEmbeddings
(src/services/ingestion.js) with its default batch size 50 sends every
individual provider call at most 50 (hence at most 100) texts, the batches
partition the units in input order, and with a pointwise provider the
resulting embeddings are the input-order map, i.e. the per-batch results
concatenated in input order.  The processAndUpsertCSV path instead requests
all units in one unbounded call (see the counterexample). -/
theorem bounded_embed_batches_amended (texts : List (List Char)) (b : List (List Char))
    (f : List Char → List Int)
    (hb : b ∈ embedBatches 50 texts) :
    b.length ≤ 50
    ∧ b.length ≤ 100
    ∧ (embedBatches 50 texts).flatten = texts
    ∧ generateEmbeddings (List.map f) 50 texts = texts.map f := by
  have h1 := embedBatches_length_le 50 (by omega) texts b hb
  refine ⟨h1, by omega, embedBatches_flatten 50 (by omega) texts, ?_⟩
  rw [generateEmbeddings, ← List.map_flatten, embedBatches_flatten 50 (by omega) texts]

/-- Claim C9 amended witness: the amended theorem applied to a concrete
two-text input, whose single batch has length 2. -/
theorem bounded_embed_batches_amended_witness :
    ([['x'], ['x']] : List (List Char)).length ≤ 50
    ∧ ([['x'], ['x']] : List (List Char)).length ≤ 100
    ∧ (embedBatches 50 ([['x'], ['x']] : List (List Char))).flatten = [['x'], ['x']]
    ∧ generateEmbeddings (List.map (fun _ => ([] : List Int))) 50 [['x'], ['x']]
        = ([['x'], ['x']] : List (List Char)).map (fun _ => ([] : List Int)) :=
  bounded_embed_batches_amended [['x'], ['x']] [['x'], ['x']] (fun _ => [])
    (by simp [embedBatches])
